import Mathlib

/-!
# Verification of the namespace / distributed-rendezvous subsystem (`dist.c`)

Shallow embedding of the Plan 9-style namespace builtins of `dist.c`:
the bind table (`add_bind`, `find_bind`, `remove_bind`, `ns_resolve`,
`ns_count`), path canonicalization (`cleanpath`), the mount orchestration
of `b_mount`, the fd-group handling of `b_rfork`, the service listing of
`b_srv`, the namespace display of `b_ns`, and the remote-command
serialization of `b_cpu`.

Filesystem and subprocess effects are modelled by explicit oracles:
`realp` stands for `realpath(3)` (`none` = the path does not exist),
`mk` for `mkdir(2)` results, and `run` for the helper that forks an
external command and reports whether it exited with status 0.
Machine integers stay small throughout the embedded code; where the C
source computes with a wrapping 32-bit `unsigned int` (the path hash)
the embedding takes the remainder modulo 2^32 explicitly.
-/

namespace Dist

/- ========== Constants from dist.h ========== -/

def BIND_REPLACE : Nat := 0

def BIND_BEFORE : Nat := 1

def BIND_AFTER : Nat := 2

def BIND_CREATE : Nat := 4

def RFNAMEG : Nat := 1

def RFCNAMEG : Nat := 2

def RFENVG : Nat := 4

def RFCENVG : Nat := 8

def RFNOTEG : Nat := 16

def RFFDG : Nat := 32

def RFCFDG : Nat := 64

def BIND_MAX : Nat := 256

def SRV_DIR : String := "/tmp/rc-srv"

/-- Namespace bind table entry (`struct Bind` of dist.h).  The chain
pointer `n` of the C struct is represented by the position of the entry
in its bucket's list. -/
structure Bind where
  «from» : String
  «to» : String
  mode : Nat
deriving DecidableEq

/-- The hash-bucketed bind table `bindtab[BIND_MAX]`: bucket index to the
singly linked chain stored in that bucket, head first. -/
abbrev BindTab := Nat → List Bind

/-- The table right after `dist_init`: every bucket empty. -/
def emptyTab : BindTab := fun _ => []

/-- Replace one bucket of the table, leaving the others untouched. -/
def updTab (tab : BindTab) (h : Nat) (l : List Bind) : BindTab :=
  fun i => if i = h then l else tab i

/-- `pathhash`: `h = h*31 + (unsigned char)*s++` over the bytes of the
path with 32-bit unsigned wraparound, then `% BIND_MAX`.  Characters
stand for their byte values (the embedded paths are ASCII, where the
UTF-8 byte equals the code point). -/
def pathhash (s : String) : Nat :=
  (s.data.foldl (fun h c => (h * 31 + c.toNat) % 4294967296) 0) % BIND_MAX

/-- `find_bind`: first entry of the bucket of `to` whose mountpoint
equals `to` (the chain walk with `streq(b->to, to)`). -/
def find_bind (tab : BindTab) («to» : String) : Option Bind :=
  (tab (pathhash «to»)).find? (fun b => b.«to» == «to»)

/-- `add_bind`: the stored mode is masked with
`BIND_BEFORE|BIND_AFTER|BIND_REPLACE`; if an entry for `to` already
exists, `BIND_BEFORE` prepends to the bucket chain, `BIND_AFTER` appends
at the end of the whole bucket chain, and otherwise (replace) every
entry of the bucket whose `to` matches is unlinked before the new entry
is prepended; with no existing entry the new entry is prepended.
`nbinds` is incremented unconditionally.  Returns the new table and the
new counter. -/
def add_bind (tab : BindTab) (nbinds : Int) (f «to» : String) (mode : Nat) :
    BindTab × Int :=
  let h := pathhash «to»
  let b : Bind := ⟨f, «to», mode &&& (BIND_BEFORE ||| BIND_AFTER ||| BIND_REPLACE)⟩
  let bucket := tab h
  let bucket' :=
    match find_bind tab «to» with
    | some _ =>
      if mode &&& BIND_BEFORE ≠ 0 then
        b :: bucket
      else if mode &&& BIND_AFTER ≠ 0 then
        bucket ++ [b]
      else
        b :: bucket.filter (fun e => !(e.«to» == «to»))
    | none => b :: bucket
  (updTab tab h bucket', nbinds + 1)

/-- The chain walk of `remove_bind` over one bucket: drops every entry
matching `to` (and `from`, when given); with `from` given the walk stops
after the first removal.  Returns the remaining chain and how many
entries were unlinked (each unlink decrements `nbinds` in the source). -/
def removeChain (f : Option String) («to» : String) : List Bind → List Bind × Nat
  | [] => ([], 0)
  | b :: rest =>
    if b.«to» == «to» && (match f with | none => true | some s => b.«from» == s) then
      match f with
      | some _ => (rest, 1)
      | none =>
        let (r, k) := removeChain none «to» rest
        (r, k + 1)
    else
      let (r, k) := removeChain f «to» rest
      (b :: r, k)

/-- `remove_bind`: unlinks matching entries from the bucket of `to`,
decrements `nbinds` once per unlinked entry, and reports whether
anything was removed. -/
def remove_bind (tab : BindTab) (nbinds : Int) (f : Option String) («to» : String) :
    BindTab × Int × Bool :=
  let h := pathhash «to»
  let (chain, k) := removeChain f «to» (tab h)
  (updTab tab h chain, nbinds - (k : Int), k ≠ 0)

/-- `ns_count`: returns the `nbinds` counter. -/
def ns_count (nbinds : Int) : Int := nbinds

/-- The entries of the bucket of `to` whose mountpoint is `to`, in chain
order: the sequence `find_bind` starts and the `b->n` successors
restricted to the same mountpoint — the union-mount resolution order
for `to`. -/
def chainFor (tab : BindTab) («to» : String) : List Bind :=
  (tab (pathhash «to»)).filter (fun b => b.«to» == «to»)

/-- All live entries of the table, bucket by bucket (the iteration order
of `b_ns`), chain order within each bucket. -/
def liveEntries (tab : BindTab) : List Bind :=
  (List.range BIND_MAX).flatMap (fun i => tab i)

/-- Number of live entries actually present in the table. -/
def liveCount (tab : BindTab) : Nat := (liveEntries tab).length

/- ========== cleanpath / ns_resolve ========== -/

/-- The trailing-slash loop of `cleanpath`: working on the reversed
character list, drop a trailing `'/'` while the remaining length stays
above 1 (`while (len > 1 && resolved[len-1] == '/')`). -/
def stripLoop : List Char → List Char
  | [] => []
  | c :: rest =>
    if c = '/' && !rest.isEmpty then stripLoop rest else c :: rest

/-- `cleanpath`: an empty path yields `"."` (the NULL case is handled by
the callers before the call, see `ns_resolve`); a path `realpath(3)`
resolves is replaced by the resolved form (`realp` is the filesystem
oracle, `none` meaning resolution failed); otherwise trailing slashes
are stripped, the root `"/"` excepted. -/
def cleanpath (realp : String → Option String) (path : String) : String :=
  if path = "" then "."
  else
    match realp path with
    | some r => r
    | none => ⟨(stripLoop path.data.reverse).reverse⟩

/-- `ns_resolve`: a NULL path (here `none`) returns NULL at once;
otherwise the path is canonicalized, its bucket chain is walked for the
first entry whose `to` equals the canonical path, and that entry's
`from` is returned — with no match the original argument `path` is
returned (`return path; /* no binding, return original */`). -/
def ns_resolve (realp : String → Option String) (tab : BindTab)
    (path : Option String) : Option String :=
  match path with
  | none => none
  | some p =>
    let clean := cleanpath realp p
    match (tab (pathhash clean)).find? (fun b => b.«to» == clean) with
    | some b => some b.«from»
    | none => some p

/- ========== Operation sequences over the bind table ========== -/

/-- The in-shell namespace state: the bind table plus the `nbinds`
counter that `ns_count` reports. -/
structure NS where
  tab : BindTab
  nbinds : Int

/-- The state set up by `dist_init`. -/
def initNS : NS := ⟨emptyTab, 0⟩

/-- One bind-table mutation as the builtins perform it: an add (from
`bind`, `mount`, `import` or `addns`, all of which go through
`add_bind`) or a remove (from `unmount`, which goes through
`remove_bind`). -/
inductive NsOp
  | add (f «to» : String) (mode : Nat)
  | remove (f : Option String) («to» : String)

/-- Apply one operation to the namespace state. -/
def applyOp (s : NS) : NsOp → NS
  | .add f t m => ⟨(add_bind s.tab s.nbinds f t m).1, (add_bind s.tab s.nbinds f t m).2⟩
  | .remove f t => ⟨(remove_bind s.tab s.nbinds f t).1, (remove_bind s.tab s.nbinds f t).2.1⟩

/-- Apply a sequence of operations left to right. -/
def runOps (s : NS) (ops : List NsOp) : NS := ops.foldl applyOp s

/-- The flag loop of `b_bind` (also the `-a -b -c` handling of `b_mount`
and `b_import`): starting from `BIND_REPLACE`, `'a'` performs
`mode = (mode & ~BIND_BEFORE) | BIND_AFTER`, `'b'` performs
`mode = (mode & ~BIND_AFTER) | BIND_BEFORE`, `'c'` sets `BIND_CREATE`,
and anything else is a usage error (`none`).  The 32-bit complement
`~x` is `4294967295 - x`. -/
def parseBindFlags : Nat → List Char → Option Nat
  | m, [] => some m
  | m, c :: rest =>
    if c = 'a' then parseBindFlags ((m &&& (4294967295 - BIND_BEFORE)) ||| BIND_AFTER) rest
    else if c = 'b' then parseBindFlags ((m &&& (4294967295 - BIND_AFTER)) ||| BIND_BEFORE) rest
    else if c = 'c' then parseBindFlags (m ||| BIND_CREATE) rest
    else none

/-- A `bind`-style add as issued from the command surface: flag
characters, source and mountpoint.  A flag-parse failure sets the shell
status to false and performs no add (the early `return` of `b_bind`). -/
def applyBindCmd (s : NS) : List Char × String × String → NS
  | (fl, f, t) =>
    match parseBindFlags BIND_REPLACE fl with
    | none => s
    | some m =>
      ⟨(add_bind s.tab s.nbinds f t m).1, (add_bind s.tab s.nbinds f t m).2⟩

/-- Run a sequence of `bind`-style adds. -/
def runBindCmds (s : NS) (cmds : List (List Char × String × String)) : NS :=
  cmds.foldl applyBindCmd s

/- ========== ensuredir / b_mount ========== -/

/-- Result of the `mkdir(2)` oracle: success, failure with `EEXIST`, or
any other failure. -/
inductive MkdirRes
  | ok
  | eexist
  | err
deriving DecidableEq

/-- `ensuredir`: nothing to do when the directory exists (`fs` is the
set of existing directories); otherwise `mkdir` is attempted only when
`mode` has `BIND_CREATE`, with `EEXIST` tolerated; every other case
fails with `-1`.  Returns the C result and the possibly extended
filesystem. -/
def ensuredir (fs : List String) (mk : String → MkdirRes) (path : String)
    (mode : Nat) : Int × List String :=
  if path ∈ fs then (0, fs)
  else if mode &&& BIND_CREATE ≠ 0 then
    match mk path with
    | .ok => (0, path :: fs)
    | .eexist => (0, fs)
    | .err => (-1, fs)
  else (-1, fs)

/-- Outcome of `b_mount`: the bind table, the counter, the filesystem
(set of directories) and the shell status it leaves behind. -/
structure MountOut where
  tab : BindTab
  nbinds : Int
  fs : List String
  ok : Bool

/-- `b_mount` after flag parsing: ensures the mountpoint with
`mode | BIND_CREATE` (failing with "cannot create"); when the address
has the `host:/path` shape (contains both `':'` and `'/'`) tries
`sshfs addr mp -o reconnect,ServerAliveInterval=15[,spec]` first; falls
back to `mount [-t spec] addr mp`; a successful strategy records the
bind via `add_bind` on the canonicalized pair and succeeds; otherwise
the command fails.  `run` is the process-launcher oracle: whether the
given command exited with status 0. -/
def b_mount (realp : String → Option String) (run : List String → Bool)
    (mk : String → MkdirRes) (fs : List String) (tab : BindTab) (nbinds : Int)
    (mode : Nat) (spec : Option String) (addr mp : String) : MountOut :=
  let e := ensuredir fs mk mp (mode ||| BIND_CREATE)
  if e.1 ≠ 0 then ⟨tab, nbinds, e.2, false⟩
  else
    let sysCmd := ["mount"] ++ (match spec with | some sp => ["-t", sp] | none => [])
      ++ [addr, mp]
    let trySys : MountOut :=
      if run sysCmd then
        let r := add_bind tab nbinds (cleanpath realp addr) (cleanpath realp mp) mode
        ⟨r.1, r.2, e.2, true⟩
      else ⟨tab, nbinds, e.2, false⟩
    if addr.data.contains ':' && addr.data.contains '/' then
      let sshCmd := ["sshfs", addr, mp, "-o", "reconnect,ServerAliveInterval=15"]
        ++ (match spec with | some sp => ["-o", sp] | none => [])
      if run sshCmd then
        let r := add_bind tab nbinds (cleanpath realp addr) (cleanpath realp mp) mode
        ⟨r.1, r.2, e.2, true⟩
      else trySys
    else trySys

/- ========== b_rfork ========== -/

/-- The flag loop of `b_rfork`: each character ORs its flag bit in;
an unknown character is an error (`none`). -/
def parseRforkFlags : Nat → List Char → Option Nat
  | m, [] => some m
  | m, c :: rest =>
    if c = 'c' || c = 'n' then parseRforkFlags (m ||| RFNAMEG) rest
    else if c = 'C' || c = 'N' then parseRforkFlags (m ||| RFCNAMEG) rest
    else if c = 'e' then parseRforkFlags (m ||| RFENVG) rest
    else if c = 'E' then parseRforkFlags (m ||| RFCENVG) rest
    else if c = 's' then parseRforkFlags (m ||| RFNOTEG) rest
    else if c = 'f' then parseRforkFlags (m ||| RFFDG) rest
    else if c = 'F' then parseRforkFlags (m ||| RFCFDG) rest
    else none

/-- The `RFFDG` branch of `b_rfork`:
`for (fd = 3; fd < 256; fd++) close(fd);` — an open descriptor survives
exactly when it is below 3 or at least 256. -/
def rfork_close_fds (openfds : List Nat) : List Nat :=
  openfds.filter (fun fd => decide (fd < 3 ∨ 256 ≤ fd))

/-- `b_rfork` restricted to its effect on the set of open descriptors:
parses the flag argument (absent argument = 0, defaulted to `RFNOTEG`),
errors (`none`) on an unknown flag before any effect, and runs the
close loop when `RFFDG` is set. -/
def b_rfork_fds (arg : Option (List Char)) (openfds : List Nat) :
    Option (List Nat) :=
  match (match arg with | none => some 0 | some l => parseRforkFlags 0 l) with
  | none => none
  | some fl =>
    let fl := if fl = 0 then RFNOTEG else fl
    some (if fl &&& RFFDG ≠ 0 then rfork_close_fds openfds else openfds)

/- ========== b_srv listing / b_ns display ========== -/

/-- An observable side effect of a builtin: a line produced on an output
stream, or an external command vector handed to the process launcher. -/
inductive Act
  | print (s : String)
  | run (argv : List String)
deriving DecidableEq

/-- What `stat(2)` classifies a service entry as in the listing branch
of `b_srv`. -/
inductive FKind
  | fifo
  | sock
  | file
deriving DecidableEq

/-- The type tag `b_srv` prints for a service entry. -/
def fkindStr : FKind → String
  | .fifo => "fifo"
  | .sock => "sock"
  | .file => "file"

/-- The body of the `readdir` loop in the listing branch of `b_srv`:
a dot entry (`d_name[0] == '.'`) is skipped, an entry whose `stat`
fails is skipped, and a surviving entry is printed as
`name\tpath\t(kind)` and sets the `found` flag. -/
def srv_scan_step (statk : String → Option FKind) (acc : List Act × Bool)
    (nm : String) : List Act × Bool :=
  if nm.data.head? = some '.' then acc
  else
    match statk nm with
    | some k =>
      (acc.1 ++ [.print (nm ++ "\t" ++ SRV_DIR ++ "/" ++ nm ++ "\t("
        ++ fkindStr k ++ ")")], true)
    | none => acc

/-- The `readdir` loop of the listing branch of `b_srv` over the
directory entries, starting with nothing printed and `found = 0`. -/
def srv_scan (statk : String → Option FKind) (names : List String) :
    List Act × Bool :=
  names.foldl (srv_scan_step statk) ([], false)

/-- The listing branch of `b_srv` (no name argument, no `-r`): scans the
service directory (`dir = none` when `opendir` fails), and prints the
"# no services" notice when nothing was listed. -/
def srv_list (dir : Option (List String)) (statk : String → Option FKind) :
    List Act :=
  let scan : List Act × Bool :=
    match dir with
    | none => ([], false)
    | some names => srv_scan statk names
  if scan.2 then scan.1
  else scan.1 ++ [.print ("# no services (srv dir: " ++ SRV_DIR ++ ")")]

/-- The mode word `b_ns` prints for an entry. -/
def modeStr (m : Nat) : String :=
  if m &&& BIND_BEFORE ≠ 0 then "before"
  else if m &&& BIND_AFTER ≠ 0 then "after"
  else "replace"

/-- The printing part of `b_ns` after flag parsing: one line per table
entry in bucket-then-chain order; when no entry was printed and `-r`
was not given, shows `/proc/mounts` when it opens (`procMounts` holds
its contents) and otherwise hands a bare `mount` invocation to the
process launcher as a fallback. -/
def b_ns_display (tab : BindTab) (recreate : Bool)
    (procMounts : Option String) : List Act :=
  let lines := (liveEntries tab).map (fun b =>
    if recreate then
      Act.print ("bind " ++ (if b.mode &&& BIND_BEFORE ≠ 0 then "-b "
        else if b.mode &&& BIND_AFTER ≠ 0 then "-a " else "")
        ++ b.«from» ++ " " ++ b.«to»)
    else
      Act.print (b.«from» ++ "\t" ++ b.«to» ++ "\t(" ++ modeStr b.mode ++ ")"))
  if lines.length = 0 && !recreate then
    match procMounts with
    | some content => lines ++ [Act.print "# system mounts:", Act.print content]
    | none => lines ++ [Act.run ["mount"]]
  else lines

/- ========== b_cpu command serialization ========== -/

/-- The per-argument quoting of `b_cpu`: an argument containing a space
or a tab (`strchr(*p, ' ') || strchr(*p, '\t')`) is wrapped in single
quotes, any other argument is passed through. -/
def cpu_quote (a : String) : String :=
  if a.data.contains ' ' || a.data.contains '\t' then "'" ++ a ++ "'" else a

/-- The untruncated reference serialization of the argument loop of
`b_cpu`: a single space before every argument but the first
(`if (p != av)`), each argument quoted by `cpu_quote`.  This is what
the loop's snprintf calls would produce given unlimited buffer space;
the actual 4096-byte `cmdbuf` is modelled by `cmdbuf_run` below, and
the two agree exactly when this reference fits the buffer. -/
def cpu_serialize_args : List String → String
  | [] => ""
  | [a] => cpu_quote a
  | a :: rest => cpu_quote a ++ " " ++ cpu_serialize_args rest

/-- The untruncated reference remote command: the environment preamble
(`PATH=...; ` when `$path` is set, passed in as `env`) followed by the
serialized arguments. -/
def cpu_cmdline (env : String) (args : List String) : String :=
  env ++ cpu_serialize_args args

/-- One `snprintf(cmdbuf + cmdlen, sizeof(cmdbuf) - cmdlen, …)` append
into the 4096-byte `cmdbuf` of `b_cpu`: `buf` is the buffer content
written so far, `len` the running `cmdlen` — snprintf returns the
length the piece would need, so `len` can pass the buffer size, and
on every state reachable from `([], 0)` the invariant
`buf.length = min len 4095` holds.  With `cmdlen < 4096` the piece is
written at offset `cmdlen` and the content (the terminating NUL
excluded) is capped at 4095 bytes; with `cmdlen = 4096` the zero-size
call writes nothing but still advances `cmdlen`; with `cmdlen > 4096`
the size `sizeof(cmdbuf) - cmdlen` underflows as `size_t` and the
write lands past the buffer — undefined behaviour, modelled as
`none`. -/
def cmdbuf_append : List Char × Nat → List Char → Option (List Char × Nat)
  | (buf, len), piece =>
    if len < 4096 then some ((buf ++ piece).take 4095, len + piece.length)
    else if len = 4096 then some (buf, len + piece.length)
    else none

/-- Run the snprintf appends of the `b_cpu` command assembly in
order. -/
def cmdbuf_run : List Char × Nat → List (List Char) → Option (List Char × Nat)
  | st, [] => some st
  | st, p :: ps =>
    match cmdbuf_append st p with
    | none => none
    | some st' => cmdbuf_run st' ps

/-- The pieces the `b_cpu` assembly hands to snprintf, in order: the
environment preamble first (`cmdlen = snprintf(cmdbuf, sizeof(cmdbuf),
"%s", envbuf)`), then the first quoted argument, then a single-space
separator before each further quoted argument (`if (p != av)`). -/
def cpu_pieces (env : String) (args : List String) : List (List Char) :=
  env.data ::
    (match args with
     | [] => []
     | a :: rest =>
       (cpu_quote a).data :: rest.flatMap (fun x => [[' '], (cpu_quote x).data]))

/-- `remote_cmd` as `b_cpu` builds it: the `cmdbuf` content after all
snprintf appends, copied out via `strcpy(remote_cmd, cmdbuf)` —
truncated at 4095 content bytes when the command line outgrows the
buffer; `none` on the undefined-behaviour executions where `cmdlen`
passed the buffer size with pieces still to write. -/
def cpu_remote_cmd (env : String) (args : List String) : Option String :=
  match cmdbuf_run ([], 0) (cpu_pieces env args) with
  | some (buf, _) => some (String.mk buf)
  | none => none

/-- Modelled from the spec: the spec's "a single shell token" notion,
which no code under src/ defines.  A minimal POSIX-style tokenizer:
blanks (space, tab, newline) split tokens outside quotes, and a
single-quoted span contributes its contents to the current token
verbatim.  The accumulator holds the current token reversed (`none` =
no token open); the Bool is the in-quote state. -/
def shTokGo : List Char → Option (List Char) → Bool → List String
  | [], none, _ => []
  | [], some cur, _ => [String.mk cur.reverse]
  | c :: rest, cur, true =>
    if c = '\'' then shTokGo rest (some (cur.getD [])) false
    else shTokGo rest (some (c :: cur.getD [])) true
  | c :: rest, cur, false =>
    if c = '\'' then shTokGo rest (some (cur.getD [])) true
    else if c = ' ' || c = '\t' || c = '\n' then
      match cur with
      | some t => String.mk t.reverse :: shTokGo rest none false
      | none => shTokGo rest none false
    else shTokGo rest (some (c :: cur.getD [])) false

/-- Tokenize a serialized command line. -/
def shTokenize (s : String) : List String := shTokGo s.data none false

example : pathhash "/t" = 37 := by decide

example : cleanpath (fun _ => none) "/a/" = "/a" := by decide

example : (add_bind emptyTab 0 "/a" "/t" BIND_BEFORE).1 (pathhash "/t")
    = [⟨"/a", "/t", 1⟩] := by decide

example : shTokenize (cpu_cmdline "" ["echo", "a b"]) = ["echo", "a b"] := by decide

example : cpu_cmdline "" ["echo", "a\nb"] = "echo a\nb" := by decide

example : cpu_remote_cmd "" ["echo", "a b"] = some "echo 'a b'" := by decide

example : b_rfork_fds (some ['f']) [0, 1, 2, 3, 300] = some [0, 1, 2, 300] := by decide

/- ========== Helper lemmas ========== -/

theorem updTab_same (tab : BindTab) (h : Nat) (l : List Bind) :
    updTab tab h l h = l := by
  simp [updTab]

theorem updTab_other (tab : BindTab) (h i : Nat) (l : List Bind) (hne : i ≠ h) :
    updTab tab h l i = tab i := by
  simp [updTab, hne]

/-- Forcing the Create flag in always makes `ensuredir`'s mode test pass. -/
theorem orCreate_hasCreate (m : Nat) : (m ||| BIND_CREATE) &&& BIND_CREATE ≠ 0 := by
  show (m ||| 4) &&& 4 ≠ 0
  have h4 : (4 : Nat) = 2 ^ 2 := by norm_num
  rw [h4, Nat.and_two_pow, Nat.testBit_or]
  have hb : Nat.testBit 4 2 = true := by decide
  simp [hb]

/- ========== C10 ========== -/

/-- C10: `ns_resolve` applied to a NULL (absent) path returns NULL for
every filesystem oracle and every table state — the public resolver is
total on this edge input and short-circuits before canonicalizing or
consulting the bind table. -/
theorem c10_resolve_null (realp : String → Option String) (tab : BindTab) :
    ns_resolve realp tab none = none := rfl

/- ========== C5 ========== -/

/-- C5 fails as stated: on a filesystem where `realpath` fails and with
an empty table, the unbound path "/a/" resolves to itself, "/a/", and
not to its canonical form "/a" — `ns_resolve` returns the original
argument, not the canonicalized path. -/
theorem c5_counterexample :
    ns_resolve (fun _ => none) emptyTab (some "/a/") = some "/a/"
      ∧ cleanpath (fun _ => none) "/a/" = "/a"
      ∧ ("/a/" : String) ≠ "/a" := by
  refine ⟨by decide, by decide, by decide⟩

/-- C5 (amended): for every path with no bind entry at its canonical
form, `ns_resolve` returns the input path unchanged — pass-through, an
unbound path resolves to itself, not an error; the canonical form is
used only for the lookup, and the returned path is the original
argument, canonical or not. -/
theorem c5_resolve_passthrough (realp : String → Option String)
    (tab : BindTab) (path : String)
    (h : ∀ b ∈ tab (pathhash (cleanpath realp path)),
      b.«to» ≠ cleanpath realp path) :
    ns_resolve realp tab (some path) = some path := by
  have hf : (tab (pathhash (cleanpath realp path))).find?
      (fun b => b.«to» == cleanpath realp path) = none := by
    rw [List.find?_eq_none]
    intro b hb
    simpa using h b hb
  simp [ns_resolve, hf]

/-- Witness for `c5_resolve_passthrough` at the unbound path "/x" over
the empty table. -/
theorem c5_resolve_passthrough_witness :
    (∀ b ∈ emptyTab (pathhash (cleanpath (fun _ => none) "/x")),
      b.«to» ≠ cleanpath (fun _ => none) "/x")
      ∧ ns_resolve (fun _ => none) emptyTab (some "/x") = some "/x" :=
  ⟨by simp [emptyTab], c5_resolve_passthrough _ _ _ (by simp [emptyTab])⟩

/- ========== C2 ========== -/

set_option maxRecDepth 8000 in
/-- C2 is right and the code is wrong: after two Replace-mode adds at
the same mountpoint starting from the freshly initialized state, one
live entry remains in the table but `ns_count` reports 2 — the replace
branch of `add_bind` unlinks the superseded entries without
decrementing `nbinds`, while `remove_bind` decrements once per entry it
unlinks. -/
theorem c2_replace_count_divergence :
    ns_count (runOps initNS [.add "/a" "/t" BIND_REPLACE,
        .add "/b" "/t" BIND_REPLACE]).nbinds = 2
      ∧ liveCount (runOps initNS [.add "/a" "/t" BIND_REPLACE,
        .add "/b" "/t" BIND_REPLACE]).tab = 1 := by
  refine ⟨by decide, by decide⟩

/- ========== C4 ========== -/

/-- C4 fails as stated: with descriptors 0, 1, 2, 3 and 300 open,
`rfork f` leaves 300 open although it is ≥ 3 and was open before the
call — the close loop runs `for (fd = 3; fd < 256; fd++)`, so 256 is an
upper bound on the descriptor numbers closed. -/
theorem c4_counterexample :
    b_rfork_fds (some ['f']) [0, 1, 2, 3, 300] = some [0, 1, 2, 300]
      ∧ (3 : Nat) ≤ 300 := by
  refine ⟨by decide, by decide⟩

/-- C4 (amended): after `rfork f`, a previously open descriptor remains
open exactly when it is numbered below 3 or at least 256: descriptors
0-2 are preserved, descriptors 3..255 are closed, and descriptors from
256 up are never closed. -/
theorem c4_fdg_close_range (openfds : List Nat) (fd : Nat)
    (hmem : fd ∈ openfds) :
    ∃ l, b_rfork_fds (some ['f']) openfds = some l
      ∧ (fd ∈ l ↔ fd < 3 ∨ 256 ≤ fd) := by
  refine ⟨rfork_close_fds openfds, rfl, ?_⟩
  simp [rfork_close_fds, List.mem_filter, hmem]

/-- Witness for `c4_fdg_close_range` at descriptor 300 of the open set
{0, 1, 2, 3, 300}. -/
theorem c4_fdg_close_range_witness :
    300 ∈ [0, 1, 2, 3, 300]
      ∧ ∃ l, b_rfork_fds (some ['f']) [0, 1, 2, 3, 300] = some l
        ∧ (300 ∈ l ↔ 300 < 3 ∨ 256 ≤ 300) :=
  ⟨by decide, c4_fdg_close_range [0, 1, 2, 3, 300] 300 (by decide)⟩

/- ========== C3 ========== -/

/-- C3 fails as stated: with the Create flag clear
(`mode = BIND_REPLACE`) and the mountpoint absent, `b_mount` creates
the directory anyway and the mount proceeds — `b_mount` passes
`mode | BIND_CREATE` to `ensuredir` unconditionally, so no
"cannot create" failure occurs while creation is possible. -/
theorem c3_counterexample :
    (b_mount (fun _ => none) (fun _ => true) (fun _ => .ok) [] emptyTab 0
      BIND_REPLACE none "h:/p" "/mp").ok = true
      ∧ (b_mount (fun _ => none) (fun _ => true) (fun _ => .ok) [] emptyTab 0
        BIND_REPLACE none "h:/p" "/mp").fs = ["/mp"]
      ∧ BIND_REPLACE &&& BIND_CREATE = 0 := by
  refine ⟨by decide, by decide, by decide⟩

/-- C3 (amended): `b_mount` forces the Create flag: with the mountpoint
absent, whatever `mode` says, a successful `mkdir` creates the
directory and the mount proceeds to its transport strategies, while a
failing `mkdir` (other than EEXIST) yields the "cannot create" failure
with the bind table, counter and filesystem all left unchanged. -/
theorem c3_mount_always_creates (realp : String → Option String)
    (run : List String → Bool) (mk : String → MkdirRes) (fs : List String)
    (tab : BindTab) (nbinds : Int) (mode : Nat) (spec : Option String)
    (addr mp : String) (habs : mp ∉ fs) :
    (mk mp = .err →
      b_mount realp run mk fs tab nbinds mode spec addr mp
        = ⟨tab, nbinds, fs, false⟩)
      ∧ (mk mp = .ok →
        (b_mount realp run mk fs tab nbinds mode spec addr mp).fs = mp :: fs) := by
  have hc := orCreate_hasCreate mode
  constructor
  · intro hmk
    simp [b_mount, ensuredir, habs, hc, hmk]
  · intro hmk
    simp only [b_mount, ensuredir, if_neg habs, if_pos hc, hmk]
    repeat' split
    all_goals rfl

/-- Witness for `c3_mount_always_creates` at the absent mountpoint
"/mp" over the empty filesystem. -/
theorem c3_mount_always_creates_witness :
    ("/mp" : String) ∉ ([] : List String)
      ∧ (((fun _ : String => MkdirRes.err) "/mp" = .err →
          b_mount (fun _ => none) (fun _ => false) (fun _ => MkdirRes.err) []
            emptyTab 0 0 none "h:/p" "/mp" = ⟨emptyTab, 0, [], false⟩)
        ∧ ((fun _ : String => MkdirRes.err) "/mp" = .ok →
          (b_mount (fun _ => none) (fun _ => false) (fun _ => MkdirRes.err) []
            emptyTab 0 0 none "h:/p" "/mp").fs = "/mp" :: [])) :=
  ⟨by decide,
   c3_mount_always_creates (fun _ => none) (fun _ => false)
     (fun _ => MkdirRes.err) [] emptyTab 0 0 none "h:/p" "/mp" (by decide)⟩

/- ========== C8 ========== -/

/-- C8: when every external transport invocation fails (sshfs where
attempted, then the system mount), `b_mount` reports failure and the
bind table and its counter are exactly as before the call — no entry
is added on any failure path. -/
theorem c8_mount_failure_no_bind (realp : String → Option String)
    (run : List String → Bool) (mk : String → MkdirRes) (fs : List String)
    (tab : BindTab) (nbinds : Int) (mode : Nat) (spec : Option String)
    (addr mp : String) (hrun : ∀ c, run c = false) :
    (b_mount realp run mk fs tab nbinds mode spec addr mp).ok = false
      ∧ (b_mount realp run mk fs tab nbinds mode spec addr mp).tab = tab
      ∧ (b_mount realp run mk fs tab nbinds mode spec addr mp).nbinds = nbinds := by
  unfold b_mount
  simp [hrun]

/-- Witness for `c8_mount_failure_no_bind`: a launcher whose every
invocation fails, at concrete inputs. -/
theorem c8_mount_failure_no_bind_witness :
    (∀ c : List String, (fun _ : List String => false) c = false)
      ∧ ((b_mount (fun _ => none) (fun _ => false) (fun _ => MkdirRes.ok) []
          emptyTab 0 0 none "h:/p" "/mp").ok = false
        ∧ (b_mount (fun _ => none) (fun _ => false) (fun _ => MkdirRes.ok) []
          emptyTab 0 0 none "h:/p" "/mp").tab = emptyTab
        ∧ (b_mount (fun _ => none) (fun _ => false) (fun _ => MkdirRes.ok) []
          emptyTab 0 0 none "h:/p" "/mp").nbinds = 0) :=
  ⟨fun _ => rfl,
   c8_mount_failure_no_bind (fun _ => none) (fun _ => false)
     (fun _ => MkdirRes.ok) [] emptyTab 0 0 none "h:/p" "/mp" (fun _ => rfl)⟩

/- ========== C6 ========== -/

/-- Every action accumulated by the `b_srv` listing loop is a print,
provided the accumulator held only prints. -/
theorem srv_scan_prints (statk : String → Option FKind) :
    ∀ (names : List String) (acc : List Act × Bool),
      (∀ a ∈ acc.1, ∃ s, a = Act.print s) →
      ∀ a ∈ (names.foldl (srv_scan_step statk) acc).1, ∃ s, a = Act.print s := by
  intro names
  induction names with
  | nil => intro acc hacc; simpa using hacc
  | cons nm rest ih =>
    intro acc hacc
    rw [List.foldl_cons]
    apply ih
    unfold srv_scan_step
    split
    · exact hacc
    · split
      · intro a ha
        rcases List.mem_append.mp ha with h | h
        · exact hacc a h
        · simp only [List.mem_singleton] at h
          exact ⟨_, h⟩
      · exact hacc

/-- C6 fails as stated: listing services over an empty service
directory prints the "# no services" notice and hands nothing to the
process launcher — in particular no bare `mount` invocation is
attempted (that fallback lives in `b_ns`). -/
theorem c6_counterexample :
    srv_list (some []) (fun _ => none)
      = [Act.print "# no services (srv dir: /tmp/rc-srv)"]
      ∧ Act.run ["mount"] ∉ srv_list (some []) (fun _ => none) := by
  refine ⟨by decide, by decide⟩

set_option maxRecDepth 8000 in
/-- C6 (amended): every action the service-listing branch of `b_srv`
emits is a print — it never hands a command to the process launcher,
whatever the directory holds; the bare `mount` fallback belongs to
`b_ns`, which emits it when the table shows no entry, `-r` is absent
and `/proc/mounts` does not open. -/
theorem c6_srv_list_no_mount (dir : Option (List String))
    (statk : String → Option FKind) (a : Act)
    (ha : a ∈ srv_list dir statk) :
    (∃ s, a = Act.print s)
      ∧ Act.run ["mount"] ∈ b_ns_display emptyTab false none := by
  refine ⟨?_, by decide⟩
  cases dir with
  | none =>
    simp [srv_list] at ha
    exact ⟨_, ha⟩
  | some names =>
    have hscan := srv_scan_prints statk names ([], false) (by simp)
    simp only [srv_list] at ha
    split at ha
    · exact hscan a ha
    · rcases List.mem_append.mp ha with h | h
      · exact hscan a h
      · simp only [List.mem_singleton] at h
        exact ⟨_, h⟩

set_option maxRecDepth 8000 in
/-- Witness for `c6_srv_list_no_mount` at the notice line of an empty
directory listing. -/
theorem c6_srv_list_no_mount_witness :
    Act.print "# no services (srv dir: /tmp/rc-srv)"
        ∈ srv_list (some []) (fun _ => none)
      ∧ ((∃ s, Act.print "# no services (srv dir: /tmp/rc-srv)" = Act.print s)
        ∧ Act.run ["mount"] ∈ b_ns_display emptyTab false none) :=
  ⟨by decide,
   c6_srv_list_no_mount (some []) (fun _ => none) _ (by decide)⟩

/- ========== C1 ========== -/

/-- With no existing entry for `to`, `add_bind` prepends the new entry
to the bucket chain. -/
theorem add_bind_bucket_new (tab : BindTab) (n : Int) (f t : String) (m : Nat)
    (h : find_bind tab t = none) :
    (add_bind tab n f t m).1 (pathhash t)
      = ⟨f, t, m &&& (BIND_BEFORE ||| BIND_AFTER ||| BIND_REPLACE)⟩
        :: tab (pathhash t) := by
  simp [add_bind, h, updTab]

/-- With an existing entry for `to` and the Before bit set, `add_bind`
prepends the new entry to the bucket chain. -/
theorem add_bind_bucket_before (tab : BindTab) (n : Int) (f t : String)
    (m : Nat) (e : Bind) (h : find_bind tab t = some e)
    (hm : m &&& BIND_BEFORE ≠ 0) :
    (add_bind tab n f t m).1 (pathhash t)
      = ⟨f, t, m &&& (BIND_BEFORE ||| BIND_AFTER ||| BIND_REPLACE)⟩
        :: tab (pathhash t) := by
  simp [add_bind, h, hm, updTab]

/-- With an existing entry for `to`, the Before bit clear and the After
bit set, `add_bind` appends the new entry at the end of the whole
bucket chain. -/
theorem add_bind_bucket_after (tab : BindTab) (n : Int) (f t : String)
    (m : Nat) (e : Bind) (h : find_bind tab t = some e)
    (hm1 : m &&& BIND_BEFORE = 0) (hm2 : m &&& BIND_AFTER ≠ 0) :
    (add_bind tab n f t m).1 (pathhash t)
      = tab (pathhash t)
        ++ [⟨f, t, m &&& (BIND_BEFORE ||| BIND_AFTER ||| BIND_REPLACE)⟩] := by
  simp [add_bind, h, hm1, hm2, updTab]

/-- C1 fails for initial table states that already hold an entry for
the mountpoint: with ⟨"/d", "/t"⟩ already bound, adding Before("/a"),
After("/b"), Before("/c") yields the resolution chain
/c, /a, /d, /b — the pre-existing entry sits between A and B, so the
chain is not C, A, B. -/
theorem c1_counterexample :
    (chainFor (runOps ⟨updTab emptyTab (pathhash "/t") [⟨"/d", "/t", 0⟩], 1⟩
        [.add "/a" "/t" BIND_BEFORE, .add "/b" "/t" BIND_AFTER,
          .add "/c" "/t" BIND_BEFORE]).tab "/t").map (fun e => e.«from»)
        = ["/c", "/a", "/d", "/b"]
      ∧ (["/c", "/a", "/d", "/b"] : List String) ≠ ["/c", "/a", "/b"] := by
  refine ⟨by decide, by decide⟩

/-- C1 (amended): for any mountpoint `to` holding no entry yet —
whatever else the initial table holds, including other mountpoints
hashed into the same bucket — adding Before(A), then After(B), then
Before(C) for `to` makes the resolution chain for `to` (the entry
`find_bind` returns and its same-mountpoint successors, in chain order)
exactly C, A, B. -/
theorem c1_before_after_before_order (tab : BindTab) (nbinds : Int)
    (fa fb fc t : String)
    (h : ∀ e ∈ tab (pathhash t), e.«to» ≠ t) :
    (chainFor (runOps ⟨tab, nbinds⟩
        [.add fa t BIND_BEFORE, .add fb t BIND_AFTER,
          .add fc t BIND_BEFORE]).tab t).map (fun e => e.«from»)
      = [fc, fa, fb] := by
  have hL : (tab (pathhash t)).filter (fun e => e.«to» == t) = [] :=
    List.filter_eq_nil_iff.mpr (fun e he => by simpa using h e he)
  have hfind0 : find_bind tab t = none :=
    List.find?_eq_none.mpr (fun e he => by simpa using h e he)
  have hmaskB : BIND_BEFORE &&& (BIND_BEFORE ||| BIND_AFTER ||| BIND_REPLACE)
      = BIND_BEFORE := by decide
  have hmaskA : BIND_AFTER &&& (BIND_BEFORE ||| BIND_AFTER ||| BIND_REPLACE)
      = BIND_AFTER := by decide
  have hB1 : BIND_BEFORE &&& BIND_BEFORE ≠ 0 := by decide
  have hA1 : BIND_AFTER &&& BIND_BEFORE = 0 := by decide
  have hA2 : BIND_AFTER &&& BIND_AFTER ≠ 0 := by decide
  simp only [runOps, List.foldl_cons, List.foldl_nil, applyOp]
  set s1 := add_bind tab nbinds fa t BIND_BEFORE with hs1
  set s2 := add_bind s1.1 s1.2 fb t BIND_AFTER with hs2
  set s3 := add_bind s2.1 s2.2 fc t BIND_BEFORE with hs3
  have e1 : s1.1 (pathhash t) = ⟨fa, t, BIND_BEFORE⟩ :: tab (pathhash t) := by
    rw [hs1, add_bind_bucket_new tab nbinds fa t BIND_BEFORE hfind0, hmaskB]
  have hfind1 : find_bind s1.1 t = some ⟨fa, t, BIND_BEFORE⟩ := by
    unfold find_bind
    rw [e1]
    apply List.find?_cons_of_pos
    simp
  have e2 : s2.1 (pathhash t)
      = (⟨fa, t, BIND_BEFORE⟩ :: tab (pathhash t)) ++ [⟨fb, t, BIND_AFTER⟩] := by
    rw [hs2, add_bind_bucket_after s1.1 s1.2 fb t BIND_AFTER _ hfind1 hA1 hA2,
      hmaskA, e1]
  have hfind2 : find_bind s2.1 t = some ⟨fa, t, BIND_BEFORE⟩ := by
    unfold find_bind
    rw [e2]
    apply List.find?_cons_of_pos
    simp
  have e3 : s3.1 (pathhash t)
      = ⟨fc, t, BIND_BEFORE⟩
        :: ((⟨fa, t, BIND_BEFORE⟩ :: tab (pathhash t)) ++ [⟨fb, t, BIND_AFTER⟩]) := by
    rw [hs3, add_bind_bucket_before s2.1 s2.2 fc t BIND_BEFORE _ hfind2 hB1,
      hmaskB, e2]
  unfold chainFor
  rw [e3]
  simp [List.filter_append, hL]

/-- Witness for `c1_before_after_before_order` over the empty table. -/
theorem c1_before_after_before_order_witness :
    (∀ e ∈ emptyTab (pathhash "/t"), e.«to» ≠ "/t")
      ∧ (chainFor (runOps ⟨emptyTab, 0⟩
          [.add "/a" "/t" BIND_BEFORE, .add "/b" "/t" BIND_AFTER,
            .add "/c" "/t" BIND_BEFORE]).tab "/t").map (fun e => e.«from»)
        = ["/c", "/a", "/b"] :=
  ⟨by simp [emptyTab],
   c1_before_after_before_order emptyTab 0 "/a" "/b" "/c" "/t"
     (by simp [emptyTab])⟩

/- ========== C9 ========== -/

/-- Entry provenance through `add_bind`: every entry of the resulting
table was already present, or is the freshly inserted entry with its
masked mode. -/
theorem add_bind_mem (tab : BindTab) (n : Int) (f t : String) (m : Nat)
    (i : Nat) (e : Bind) (he : e ∈ (add_bind tab n f t m).1 i) :
    e ∈ tab i
      ∨ e = ⟨f, t, m &&& (BIND_BEFORE ||| BIND_AFTER ||| BIND_REPLACE)⟩ := by
  by_cases hi : i = pathhash t
  · subst hi
    simp only [add_bind, updTab_same] at he
    split at he
    · split at he
      · rcases List.mem_cons.mp he with h | h
        · exact Or.inr h
        · exact Or.inl h
      · split at he
        · rcases List.mem_append.mp he with h | h
          · exact Or.inl h
          · exact Or.inr (List.mem_singleton.mp h)
        · rcases List.mem_cons.mp he with h | h
          · exact Or.inr h
          · exact Or.inl (List.mem_filter.mp h).1
    · rcases List.mem_cons.mp he with h | h
      · exact Or.inr h
      · exact Or.inl h
  · simp only [add_bind] at he
    rw [updTab_other _ _ _ _ hi] at he
    exact Or.inl he

/-- The flag loop of `b_bind` keeps the mode in
{0, 1, 2, 4, 5, 6} = {Replace, Before, After} × {Create unset, set}:
Before and After are mutually exclusive. -/
theorem parseBindFlags_mem :
    ∀ (fl : List Char) (m : Nat), m ∈ ([0, 1, 2, 4, 5, 6] : List Nat) →
      ∀ m', parseBindFlags m fl = some m'
        → m' ∈ ([0, 1, 2, 4, 5, 6] : List Nat) := by
  intro fl
  induction fl with
  | nil =>
    intro m hm m' h
    unfold parseBindFlags at h
    cases h
    exact hm
  | cons c rest ih =>
    intro m hm m' h
    unfold parseBindFlags at h
    split at h
    · exact ih _ (by fin_cases hm <;> decide) _ h
    · split at h
      · exact ih _ (by fin_cases hm <;> decide) _ h
      · split at h
        · exact ih _ (by fin_cases hm <;> decide) _ h
        · simp at h

/-- Mode invariant preservation over any sequence of `bind`-style
adds. -/
theorem runBindCmds_mode_ok (cmds : List (List Char × String × String)) :
    ∀ s : NS,
      (∀ i, ∀ e ∈ s.tab i,
        e.mode = BIND_REPLACE ∨ e.mode = BIND_BEFORE ∨ e.mode = BIND_AFTER) →
      ∀ i, ∀ e ∈ (runBindCmds s cmds).tab i,
        e.mode = BIND_REPLACE ∨ e.mode = BIND_BEFORE ∨ e.mode = BIND_AFTER := by
  induction cmds with
  | nil =>
    intro s hs
    simpa [runBindCmds] using hs
  | cons cmd rest ih =>
    intro s hs
    have hstep : runBindCmds s (cmd :: rest)
        = runBindCmds (applyBindCmd s cmd) rest := rfl
    rw [hstep]
    apply ih
    intro i e he
    rcases cmd with ⟨fl, f, t⟩
    unfold applyBindCmd at he
    dsimp only at he
    cases hp : parseBindFlags BIND_REPLACE fl with
    | none =>
      rw [hp] at he
      exact hs i e he
    | some m =>
      rw [hp] at he
      rcases add_bind_mem s.tab s.nbinds f t m i e he with h | h
      · exact hs i e h
      · have hm := parseBindFlags_mem fl BIND_REPLACE (by decide) m hp
        rw [h]
        dsimp only
        fin_cases hm <;> decide

/-- C9: starting from the initialized table, any sequence of
command-surface adds leaves every stored entry's mode equal to exactly
one of Replace, Before, After, with the Create bit never stored —
`add_bind` masks the mode with `BIND_BEFORE|BIND_AFTER|BIND_REPLACE`
and the flag loop keeps Before and After mutually exclusive, so `ns`
never reports a Create mode. -/
theorem c9_stored_mode_valid (cmds : List (List Char × String × String))
    (i : Nat) (e : Bind) (he : e ∈ (runBindCmds initNS cmds).tab i) :
    (e.mode = BIND_REPLACE ∨ e.mode = BIND_BEFORE ∨ e.mode = BIND_AFTER)
      ∧ e.mode &&& BIND_CREATE = 0 := by
  have h1 := runBindCmds_mode_ok cmds initNS (by simp [initNS, emptyTab]) i e he
  refine ⟨h1, ?_⟩
  rcases h1 with h | h | h <;> rw [h] <;> decide

/-- Witness for `c9_stored_mode_valid`: a `bind -c` add starting from
the initialized state stores mode Replace with the Create bit gone. -/
theorem c9_stored_mode_valid_witness :
    (⟨"/a", "/t", 0⟩ : Bind)
        ∈ (runBindCmds initNS [(['c'], "/a", "/t")]).tab (pathhash "/t")
      ∧ (((⟨"/a", "/t", 0⟩ : Bind).mode = BIND_REPLACE
          ∨ (⟨"/a", "/t", 0⟩ : Bind).mode = BIND_BEFORE
          ∨ (⟨"/a", "/t", 0⟩ : Bind).mode = BIND_AFTER)
        ∧ (⟨"/a", "/t", 0⟩ : Bind).mode &&& BIND_CREATE = 0) :=
  ⟨by decide, c9_stored_mode_valid [(['c'], "/a", "/t")] (pathhash "/t") _ (by decide)⟩

/- ========== C7 ========== -/

/-- `String.append` concatenates the character data. -/
theorem string_data_append (s t : String) : (s ++ t).data = s.data ++ t.data := rfl

/-- Inside a single-quoted span, quote-free characters are accumulated
verbatim into the current token. -/
theorem shTokGo_quoted_absorb :
    ∀ (l : List Char), '\'' ∉ l →
      ∀ (cur rest : List Char),
        shTokGo (l ++ rest) (some cur) true
          = shTokGo rest (some (l.reverse ++ cur)) true := by
  intro l
  induction l with
  | nil =>
    intro _ cur rest
    simp
  | cons c l' ih =>
    intro hl cur rest
    simp only [List.mem_cons, not_or] at hl
    have hc : ¬(c = '\'') := fun h => hl.1 h.symm
    simp only [List.cons_append, shTokGo, if_neg hc, Option.getD_some,
      List.append_eq]
    rw [ih hl.2 (c :: cur)]
    simp [List.append_assoc]

/-- Outside quotes, characters that are neither quotes nor blanks are
accumulated verbatim into the current token. -/
theorem shTokGo_plain_absorb :
    ∀ (l : List Char),
      (∀ c ∈ l, ¬(c = '\'') ∧ ¬(c = ' ') ∧ ¬(c = '\t') ∧ ¬(c = '\n')) →
      ∀ (cur rest : List Char),
        shTokGo (l ++ rest) (some cur) false
          = shTokGo rest (some (l.reverse ++ cur)) false := by
  intro l
  induction l with
  | nil =>
    intro _ cur rest
    simp
  | cons c l' ih =>
    intro hl cur rest
    obtain ⟨hq, hs, ht, hn⟩ := hl c (List.mem_cons_self c l')
    simp only [List.cons_append, shTokGo, if_neg hq, Option.getD_some,
      List.append_eq]
    rw [if_neg (by simp [hs, ht, hn])]
    rw [ih (fun x hx => hl x (List.mem_cons_of_mem c hx)) (c :: cur)]
    simp [List.append_assoc]

/-- A blank ends the open token. -/
theorem shTokGo_space (xs t : List Char) :
    shTokGo (' ' :: xs) (some t) false
      = String.mk t.reverse :: shTokGo xs none false := by
  simp [shTokGo]

/-- One serialized argument (quoted exactly when it holds a space or a
tab) is absorbed as one whole token. -/
theorem shTokGo_token (a : String) (hq : '\'' ∉ a.data) (hn : '\n' ∉ a.data)
    (hne : a ≠ "") :
    ∀ rest, shTokGo ((cpu_quote a).data ++ rest) none false
      = shTokGo rest (some a.data.reverse) false := by
  intro rest
  unfold cpu_quote
  split
  · have hform : ("'" ++ a ++ "'").data ++ rest
        = '\'' :: (a.data ++ ('\'' :: rest)) := by
      simp [string_data_append]
    rw [hform]
    have hstep : shTokGo ('\'' :: (a.data ++ '\'' :: rest)) none false
        = shTokGo (a.data ++ '\'' :: rest) (some []) true := by
      simp [shTokGo]
    rw [hstep, shTokGo_quoted_absorb a.data hq [] ('\'' :: rest)]
    simp [shTokGo]
  · next hcond =>
    have hst : ' ' ∉ a.data ∧ '\t' ∉ a.data := by
      simpa [List.contains, not_or] using hcond
    have hall : ∀ x ∈ a.data,
        ¬(x = '\'') ∧ ¬(x = ' ') ∧ ¬(x = '\t') ∧ ¬(x = '\n') := by
      intro x hx
      exact ⟨fun h => hq (h ▸ hx), fun h => hst.1 (h ▸ hx),
        fun h => hst.2 (h ▸ hx), fun h => hn (h ▸ hx)⟩
    cases hd : a.data with
    | nil => exact absurd (String.ext hd) hne
    | cons c l =>
      rw [hd] at hall
      obtain ⟨h1, h2, h3, h4⟩ := hall c (List.mem_cons_self c l)
      simp only [List.cons_append, shTokGo, if_neg h1, Option.getD_none,
        List.append_eq]
      rw [if_neg (by simp [h2, h3, h4])]
      rw [shTokGo_plain_absorb l
        (fun x hx => hall x (List.mem_cons_of_mem c hx)) [c] rest]
      simp

/-- The untruncated serialization tokenizes back to the argument
vector when the arguments are nonempty and free of single quotes and
newlines. -/
theorem shTokenize_serialize (args : List String)
    (h : ∀ a ∈ args, a ≠ "" ∧ '\'' ∉ a.data ∧ '\n' ∉ a.data) :
    shTokenize (cpu_cmdline "" args) = args := by
  induction args with
  | nil => rfl
  | cons a rest ih =>
    obtain ⟨hne, hq, hn⟩ := h a (List.mem_cons_self a rest)
    have hrest : ∀ x ∈ rest, x ≠ "" ∧ '\'' ∉ x.data ∧ '\n' ∉ x.data :=
      fun x hx => h x (List.mem_cons_of_mem a hx)
    cases rest with
    | nil =>
      show shTokGo ((cpu_quote a).data) none false = [a]
      have habs := shTokGo_token a hq hn hne []
      rw [List.append_nil] at habs
      rw [habs]
      simp [shTokGo]
    | cons b bs =>
      show shTokGo (cpu_serialize_args (a :: b :: bs)).data none false
        = a :: b :: bs
      have hdata : (cpu_serialize_args (a :: b :: bs)).data
          = (cpu_quote a).data
            ++ (' ' :: (cpu_serialize_args (b :: bs)).data) := by
        show ((cpu_quote a ++ " ") ++ cpu_serialize_args (b :: bs)).data = _
        simp [string_data_append, List.append_assoc]
      rw [hdata, shTokGo_token a hq hn hne, shTokGo_space]
      rw [List.reverse_reverse]
      exact congrArg₂ _ rfl (ih hrest)

/-- While the running `cmdlen` never has to pass 4095, every snprintf
append fits and the buffer accumulates the pieces verbatim. -/
theorem cmdbuf_no_truncate :
    ∀ (pieces : List (List Char)) (buf : List Char) (len : Nat),
      len = buf.length →
      buf.length + (pieces.map List.length).sum ≤ 4095 →
      cmdbuf_run (buf, len) pieces
        = some (buf ++ pieces.flatten, len + (pieces.map List.length).sum) := by
  intro pieces
  induction pieces with
  | nil =>
    intro buf len hlen hfit
    simp [cmdbuf_run]
  | cons p ps ih =>
    intro buf len hlen hfit
    simp only [List.map_cons, List.sum_cons] at hfit
    have hlt : len < 4096 := by omega
    have htake : (buf ++ p).take 4095 = buf ++ p := by
      apply List.take_of_length_le
      simp only [List.length_append]
      omega
    simp only [cmdbuf_run, cmdbuf_append, if_pos hlt, htake]
    rw [ih (buf ++ p) (len + p.length)
      (by simp [hlen]) (by simp only [List.length_append]; omega)]
    simp [List.append_assoc, Nat.add_assoc]

/-- The separator/argument pieces of every argument after the first
flatten to a leading space followed by the serialized tail. -/
theorem cpu_sep_flatten :
    ∀ (xs : List String) (x : String),
      (((x :: xs).flatMap (fun y => [[' '], (cpu_quote y).data])).flatten
          : List Char)
        = ' ' :: (cpu_serialize_args (x :: xs)).data := by
  intro xs
  induction xs with
  | nil =>
    intro x
    simp [cpu_serialize_args]
  | cons y ys ih =>
    intro x
    simp only [List.flatMap_cons, List.flatten_append, List.flatten_cons,
      List.flatten_nil, List.append_nil, List.cons_append, List.nil_append]
      at ih ⊢
    rw [ih y]
    simp [cpu_serialize_args, string_data_append, List.append_assoc]

/-- The snprintf pieces of the `b_cpu` assembly flatten to the
untruncated reference command line. -/
theorem cpu_pieces_flatten (env : String) (args : List String) :
    (cpu_pieces env args).flatten = (cpu_cmdline env args).data := by
  cases args with
  | nil =>
    simp [cpu_pieces, cpu_cmdline, cpu_serialize_args, string_data_append]
  | cons a rest =>
    cases rest with
    | nil =>
      simp [cpu_pieces, cpu_cmdline, cpu_serialize_args, string_data_append]
    | cons b bs =>
      simp only [cpu_pieces, List.flatten_cons]
      rw [cpu_sep_flatten bs b]
      simp [cpu_cmdline, cpu_serialize_args, string_data_append,
        List.append_assoc]

/-- C7 fails as stated: the argument "a\nb" contains whitespace (a
newline) yet is serialized unquoted — only a space or a tab triggers
quoting — and under the spec's own token reading the remote command
"echo a\nb" the program builds splits it into two tokens. -/
theorem c7_counterexample :
    cpu_remote_cmd "" ["echo", "a\nb"] = some "echo a\nb"
      ∧ Char.isWhitespace '\n' = true
      ∧ shTokenize "echo a\nb" = ["echo", "a", "b"] := by
  refine ⟨by decide, by decide, by decide⟩

/-- C7 (amended): the serialization quotes exactly the arguments
containing a space or a tab and joins with single spaces; whenever the
untruncated command line fits `cmdbuf` (at most 4095 bytes — longer
lines are truncated by snprintf, and past the first truncation the
remaining size underflows) and the arguments are nonempty and free of
single quotes and newlines, the remote command `b_cpu` builds is the
full serialization and tokenizing it recovers the original arguments —
each argument, two-word ones included, stays a single shell token. -/
theorem c7_quoting_single_token (args : List String)
    (h : ∀ a ∈ args, a ≠ "" ∧ '\'' ∉ a.data ∧ '\n' ∉ a.data)
    (hfit : (cpu_cmdline "" args).data.length ≤ 4095) :
    cpu_remote_cmd "" args = some (cpu_cmdline "" args)
      ∧ shTokenize (cpu_cmdline "" args) = args := by
  constructor
  · have hsum : ((cpu_pieces "" args).map List.length).sum
        = (cpu_cmdline "" args).data.length := by
      rw [← cpu_pieces_flatten]
      exact (List.length_flatten _).symm
    unfold cpu_remote_cmd
    rw [cmdbuf_no_truncate (cpu_pieces "" args) [] 0 rfl
      (by simpa [hsum] using hfit)]
    simp [cpu_pieces_flatten]
  · exact shTokenize_serialize args h

/-- Witness for `c7_quoting_single_token` at `cpu -h host echo "a b"`:
the two-word argument fits the buffer and round-trips as one token. -/
theorem c7_quoting_single_token_witness :
    ((∀ a ∈ (["echo", "a b"] : List String),
        a ≠ "" ∧ '\'' ∉ a.data ∧ '\n' ∉ a.data)
      ∧ (cpu_cmdline "" ["echo", "a b"]).data.length ≤ 4095)
      ∧ (cpu_remote_cmd "" ["echo", "a b"]
          = some (cpu_cmdline "" ["echo", "a b"])
        ∧ shTokenize (cpu_cmdline "" ["echo", "a b"]) = ["echo", "a b"]) :=
  ⟨⟨by decide, by decide⟩,
   c7_quoting_single_token ["echo", "a b"] (by decide) (by decide)⟩

end Dist
